/-
Verification of the clockwork transaction-executor scheduler
(`plugin/src/executors/tx.rs`).

The scheduler keeps two in-memory maps keyed by automation pubkey:
`executable_automations : HashMap<Pubkey, ExecutableAutomationMetadata>` and
`transaction_history : HashMap<Pubkey, TransactionMetadata>`, plus an atomic
drop counter.  We embed the maps as association lists whose insert removes
the old binding first, so lookup behaves exactly like the Rust `HashMap`.
External effects (account fetches, signature-status queries, transaction
building, batch submission) are passed in as oracle arguments; each round of
`execute_txs` is a pure function of the state and these oracles.
-/
import Mathlib

set_option autoImplicit false

abbrev Pubkey := Nat

/-! ### Finite maps as association lists -/

def mlookup {α : Type} : List (Pubkey × α) → Pubkey → Option α
  | [], _ => none
  | (k, v) :: rest, pk => if k = pk then some v else mlookup rest pk

def mremove {α : Type} : List (Pubkey × α) → Pubkey → List (Pubkey × α)
  | [], _ => []
  | (k, v) :: rest, pk =>
      if k = pk then mremove rest pk else (k, v) :: mremove rest pk

def minsert {α : Type} (m : List (Pubkey × α)) (pk : Pubkey) (v : α) : List (Pubkey × α) :=
  (pk, v) :: mremove m pk

def mAndModify {α : Type} : List (Pubkey × α) → Pubkey → (α → α) → List (Pubkey × α)
  | [], _, _ => []
  | (k, v) :: rest, pk, f =>
      if k = pk then (k, f v) :: mAndModify rest pk f
      else (k, v) :: mAndModify rest pk f

def mkeys {α : Type} (m : List (Pubkey × α)) : List Pubkey :=
  m.map Prod.fst

/-! ### Data model (`tx.rs`) -/

/-- `TRANSACTION_CONFIRMATION_PERIOD`: number of slots to wait before checking
for a confirmed transaction. -/
def TRANSACTION_CONFIRMATION_PERIOD : Nat := 10

/-- `AUTOMATION_TIMEOUT_WINDOW`: number of slots to wait before trying to
execute an automation while not in the pool. -/
def AUTOMATION_TIMEOUT_WINDOW : Nat := 8

/-- `MAX_AUTOMATION_SIMULATION_FAILURES`: number of times to retry an
automation simulation. -/
def MAX_AUTOMATION_SIMULATION_FAILURES : Nat := 5

/-- `EXPONENTIAL_BACKOFF_CONSTANT`: the constant of the exponential backoff
function. -/
def EXPONENTIAL_BACKOFF_CONSTANT : Nat := 2

structure ExecutableAutomationMetadata where
  due_slot : Nat
  simulation_failures : Nat
deriving Repr, DecidableEq

structure TransactionMetadata where
  slot_sent : Nat
  signature : Nat
deriving Repr, DecidableEq

abbrev MetaMap := List (Pubkey × ExecutableAutomationMetadata)
abbrev HistMap := List (Pubkey × TransactionMetadata)

/-- `PoolPosition` (from `pool_position.rs`): this worker's index in the
pool's worker list, if present, together with the worker list itself. -/
structure PoolPosition where
  current_position : Option Nat
  workers : List Pubkey
deriving Repr, DecidableEq

/-- A transaction, reduced to what the scheduler inspects: its list of
signatures (`tx.signatures`); the scheduler reads `tx.signatures[0]`. -/
structure Transaction where
  signatures : List Nat
deriving Repr, DecidableEq

/-- `tx.signatures[0]` — the first signature of a built transaction (built
transactions always carry at least one signature). -/
def firstSignature (tx : Transaction) : Nat := tx.signatures.headD 0

/-- Result of `get_signature_status_with_commitment`:
`Err(_)` / `Ok(None)` / `Ok(Some(Err(_)))` / `Ok(Some(Ok(())))`. -/
inductive SignatureStatus
  | queryError
  | notLanded
  | landedFailed
  | landedOk
deriving Repr, DecidableEq

/-- Outcome of the account fetch + `build_automation_exec_tx` call made by
`try_build_automation_exec_tx` for one automation pubkey. -/
inductive BuildOutcome
  | fetchError
  | buildNone
  | built (tx : Transaction)
deriving Repr, DecidableEq

/-- Scheduler state owned by `TxExecutor`. -/
structure SchedState where
  executable_automations : MetaMap
  transaction_history : HistMap
  dropped_automations : Nat
deriving Repr, DecidableEq

/-! ### Scheduler operations (`tx.rs`) -/

/-- The backoff filter applied in both branches of
`get_executable_automations`:
`slot >= metadata.due_slot + EXPONENTIAL_BACKOFF_CONSTANT.pow(metadata.simulation_failures) as u64 - 1`.
(`2^f ≥ 1`, so truncated subtraction agrees with the `u64` arithmetic.) -/
def backoffGate (slot : Nat) (md : ExecutableAutomationMetadata) : Bool :=
  decide (md.due_slot + EXPONENTIAL_BACKOFF_CONSTANT ^ md.simulation_failures - 1 ≤ slot)

/-- The extra filter of the non-member branch:
`slot > metadata.due_slot + AUTOMATION_TIMEOUT_WINDOW`. -/
def timeoutGate (slot : Nat) (md : ExecutableAutomationMetadata) : Bool :=
  decide (md.due_slot + AUTOMATION_TIMEOUT_WINDOW < slot)

/-- `TxExecutor::get_executable_automations`. -/
def get_executable_automations (executable_automations : MetaMap)
    (pool_position : PoolPosition) (slot : Nat) : List Pubkey :=
  if pool_position.current_position.isNone && !pool_position.workers.isEmpty then
    ((executable_automations.filter (fun p => timeoutGate slot p.2)).filter
        (fun p => backoffGate slot p.2)).map Prod.fst
  else
    (executable_automations.filter (fun p => backoffGate slot p.2)).map Prod.fst

/-- `TxExecutor::process_retries`.  `statusOf` is the
`get_signature_status_with_commitment` oracle, keyed by signature.  Records
are checkable only when `slot > slot_sent + TRANSACTION_CONFIRMATION_PERIOD`;
query errors contribute to neither set; `Ok(None)` and `Ok(Some(Err))` mark
the automation retriable; `Ok(Some(Ok(())))` marks it successful.  Successful
automations are dropped from the history; retriable ones are dropped from the
history and re-inserted as executable with the current slot and zero
failures. -/
def process_retries (transaction_history : HistMap) (executable_automations : MetaMap)
    (slot : Nat) (statusOf : Nat → SignatureStatus) : HistMap × MetaMap :=
  let checkable := transaction_history.filter
    (fun p => decide (p.2.slot_sent + TRANSACTION_CONFIRMATION_PERIOD < slot))
  let successful := (checkable.filter
    (fun p => decide (statusOf p.2.signature = SignatureStatus.landedOk))).map Prod.fst
  let retriable := (checkable.filter
    (fun p => decide (statusOf p.2.signature = SignatureStatus.notLanded) ||
      decide (statusOf p.2.signature = SignatureStatus.landedFailed))).map Prod.fst
  let hist1 := successful.foldl (fun acc pk => mremove acc pk) transaction_history
  retriable.foldl
    (fun acc pk =>
      (mremove acc.1 pk,
       minsert acc.2 pk { due_slot := slot, simulation_failures := 0 }))
    (hist1, executable_automations)

/-- `TxExecutor::increment_simulation_failure`: bump the counter of an
existing entry via `HashMap::entry(..).and_modify(..)` (no insertion). -/
def increment_simulation_failure (executable_automations : MetaMap) (automation_pubkey : Pubkey) :
    MetaMap :=
  mAndModify executable_automations automation_pubkey
    (fun metadata => { metadata with simulation_failures := metadata.simulation_failures + 1 })

/-- `TxExecutor::dedupe_tx`: `true` means `Ok(())` (not a duplicate); `false`
means the duplicate error. -/
def dedupe_tx (transaction_history : HistMap) (slot : Nat) (automation_pubkey : Pubkey)
    (tx : Transaction) : Bool :=
  match mlookup transaction_history automation_pubkey with
  | some metadata =>
      !(decide (metadata.signature = firstSignature tx) && decide (metadata.slot_sent ≤ slot))
  | none => true

/-- `TxExecutor::try_build_automation_exec_tx`: on a fetch error or a builder
refusal, increments the simulation-failure counter and yields nothing; on a
built transaction it yields the `(pubkey, tx)` pair iff the dedupe check
passes (a duplicate yields nothing, without touching the counter). -/
def try_build_automation_exec_tx (executable_automations : MetaMap)
    (transaction_history : HistMap) (slot : Nat) (automation_pubkey : Pubkey)
    (outcome : BuildOutcome) : MetaMap × Option (Pubkey × Transaction) :=
  match outcome with
  | BuildOutcome.fetchError =>
      (increment_simulation_failure executable_automations automation_pubkey, none)
  | BuildOutcome.buildNone =>
      (increment_simulation_failure executable_automations automation_pubkey, none)
  | BuildOutcome.built tx =>
      if dedupe_tx transaction_history slot automation_pubkey tx then
        (executable_automations, some (automation_pubkey, tx))
      else
        (executable_automations, none)

/-- The build fan-out of `execute_automation_exec_txs`: run
`try_build_automation_exec_tx` for every due pubkey and collect the
`executed_automations` entries `(pubkey, tx.signatures[0])`.  The concurrent
tasks only write their own key, so this sequential threading is a faithful
linearization. -/
def buildPhase (executable_automations : MetaMap) (transaction_history : HistMap)
    (slot : Nat) (build : Pubkey → BuildOutcome) :
    List Pubkey → MetaMap × List (Pubkey × Nat)
  | [] => (executable_automations, [])
  | pk :: rest =>
      let r := try_build_automation_exec_tx executable_automations transaction_history
        slot pk (build pk)
      let rec_result := buildPhase r.1 transaction_history slot build rest
      match r.2 with
      | none => rec_result
      | some pr => (rec_result.1, (pr.1, firstSignature pr.2) :: rec_result.2)

/-- `TxExecutor::execute_automation_exec_txs`: select the due set, build and
dedupe in parallel, then batch-submit.  On transport failure the error is
only logged (no map is written); on success every executed automation's
metadata entry is removed and a `TransactionMetadata { slot_sent: slot,
signature }` is inserted into the history. -/
def execute_automation_exec_txs (executable_automations : MetaMap)
    (transaction_history : HistMap) (slot : Nat) (pool_position : PoolPosition)
    (build : Pubkey → BuildOutcome) (submitOk : Bool) : MetaMap × HistMap :=
  let due := get_executable_automations executable_automations pool_position slot
  if due.isEmpty then (executable_automations, transaction_history)
  else
    let built := buildPhase executable_automations transaction_history slot build due
    if submitOk then
      built.2.foldl
        (fun acc pr =>
          (mremove acc.1 pr.1,
           minsert acc.2 pr.1 { slot_sent := slot, signature := pr.2 }))
        (built.1, transaction_history)
    else
      (built.1, transaction_history)

/-- The `retain` pass of `execute_txs`: drop every metadata entry whose
`simulation_failures` exceeds `MAX_AUTOMATION_SIMULATION_FAILURES`, bumping
`dropped_automations` once per removal. -/
def dropFailedAutomations : MetaMap → Nat → MetaMap × Nat
  | [], dropped => ([], dropped)
  | (pk, metadata) :: rest, dropped =>
      let r := dropFailedAutomations rest dropped
      if MAX_AUTOMATION_SIMULATION_FAILURES < metadata.simulation_failures then
        (r.1, r.2 + 1)
      else
        ((pk, metadata) :: r.1, r.2)

/-- Oracle inputs consumed by one round of `execute_txs`. -/
structure RoundEnv where
  triggered : List Pubkey
  slot : Nat
  statusOf : Nat → SignatureStatus
  poolFetch : Option PoolPosition
  build : Pubkey → BuildOutcome
  submitOk : Bool

/-- `TxExecutor::execute_txs`, one scheduling round: (1) index every provided
automation as executable with `due_slot = slot` and zero failures; (2) drop
entries past the failure threshold; (3) process retries; (4) fetch the pool —
on failure skip the rest of the round; otherwise (5) rotate into the pool if
absent (`execute_pool_rotate_txs` writes neither map) and (6) run the
exec-transaction pipeline. -/
def execute_txs (s : SchedState) (env : RoundEnv) : SchedState :=
  let meta0 := env.triggered.foldl
    (fun acc pk => minsert acc pk { due_slot := env.slot, simulation_failures := 0 })
    s.executable_automations
  let pruned := dropFailedAutomations meta0 s.dropped_automations
  let retried := process_retries s.transaction_history pruned.1 env.slot env.statusOf
  match env.poolFetch with
  | none =>
      { executable_automations := retried.2,
        transaction_history := retried.1,
        dropped_automations := pruned.2 }
  | some pool_position =>
      let final := execute_automation_exec_txs retried.2 retried.1 env.slot pool_position
        env.build env.submitOk
      { executable_automations := final.1,
        transaction_history := final.2,
        dropped_automations := pruned.2 }

/-- States reachable from a fresh `TxExecutor` by scheduling rounds. -/
inductive Reachable : SchedState → Prop
  | init : Reachable ⟨[], [], 0⟩
  | step {s : SchedState} (hs : Reachable s) (env : RoundEnv) : Reachable (execute_txs s env)

/-- Result of a ledger account fetch (`client.get::<T>(..)`). -/
inductive FetchResult (α : Type)
  | ok (value : α)
  | fetchError
deriving Repr, DecidableEq

/-- How one call to `execute_pool_rotate_txs` ends. -/
inductive RotateOutcome
  | panicked
  | completedOk
  | completedErr
deriving Repr, DecidableEq

/-- `TxExecutor::execute_pool_rotate_txs` control flow.  The Registry fetch
result is `.unwrap()`ed, so an `Err` there panics the process; a Snapshot or
SnapshotFrame fetch error falls through to `Ok(())` (the `if let Ok`
guards); a builder `None` falls through to `Ok(())`; a simulation or
submission failure propagates as `Err` via `?`, which the caller in
`execute_txs` discards with `.ok()`.  Neither map is written on any path. -/
def execute_pool_rotate_txs (registryFetch : FetchResult Unit)
    (snapshotFetch : FetchResult Unit) (snapshotFrameFetch : FetchResult Unit)
    (buildResult : Option Transaction) (simulateOk : Bool) (submitOk : Bool) :
    RotateOutcome :=
  match registryFetch with
  | FetchResult.fetchError => RotateOutcome.panicked
  | FetchResult.ok _ =>
    match snapshotFetch with
    | FetchResult.fetchError => RotateOutcome.completedOk
    | FetchResult.ok _ =>
      match snapshotFrameFetch with
      | FetchResult.fetchError => RotateOutcome.completedOk
      | FetchResult.ok _ =>
        match buildResult with
        | none => RotateOutcome.completedOk
        | some _ =>
          if simulateOk then
            if submitOk then RotateOutcome.completedOk else RotateOutcome.completedErr
          else RotateOutcome.completedErr

/-- Pairwise mutual exclusion: no pubkey holds both an executable-metadata
entry and a transaction-history record. -/
def MutExMaps (meta : MetaMap) (hist : HistMap) : Prop :=
  ∀ pk : Pubkey, mlookup meta pk = none ∨ mlookup hist pk = none

/-- Mutual exclusion for a scheduler state. -/
def MutEx (s : SchedState) : Prop :=
  MutExMaps s.executable_automations s.transaction_history

/-- A round whose every build attempt fails with a fetch error (the worker is
in the pool, so only the backoff gate applies). -/
def envFail (slot : Nat) (trig : List Pubkey) : RoundEnv :=
  { triggered := trig, slot := slot,
    statusOf := fun _ => SignatureStatus.queryError,
    poolFetch := some ⟨some 0, [77]⟩,
    build := fun _ => BuildOutcome.fetchError,
    submitOk := true }

/-- Six rounds in which automation 7 (triggered at slot 0) fails its build
every time it is selected: its failure counter ends the sixth round at 6. -/
def failSixState : SchedState :=
  execute_txs (execute_txs (execute_txs (execute_txs (execute_txs (execute_txs
    ⟨[], [], 0⟩ (envFail 0 [7])) (envFail 1 [])) (envFail 3 [])) (envFail 7 []))
    (envFail 15 [])) (envFail 31 [])

/-- Round: automation 7 triggers at slot 100, builds a transaction with first
signature 555 and the batch submit succeeds. -/
def envSubmit : RoundEnv :=
  { triggered := [7], slot := 100,
    statusOf := fun _ => SignatureStatus.queryError,
    poolFetch := some ⟨some 0, [77]⟩,
    build := fun _ => BuildOutcome.built ⟨[555]⟩,
    submitOk := true }

/-- Round: automation 7 triggers again at slot 101 while its transaction
record from slot 100 is still outstanding (the confirmation window has not
elapsed); the pool fetch fails, so the round ends after the retry pass. -/
def envRetrigger : RoundEnv :=
  { triggered := [7], slot := 101,
    statusOf := fun _ => SignatureStatus.queryError,
    poolFetch := none,
    build := fun _ => BuildOutcome.fetchError,
    submitOk := false }

/-- After `envSubmit` then `envRetrigger`, automation 7 holds a metadata
entry and a history record simultaneously. -/
def retriggerState : SchedState := execute_txs (execute_txs ⟨[], [], 0⟩ envSubmit) envRetrigger

/-! ### Map lemmas -/

theorem mlookup_mem {α : Type} {m : List (Pubkey × α)} {pk : Pubkey} {v : α}
    (h : mlookup m pk = some v) : (pk, v) ∈ m := by
  induction m with
  | nil => simp [mlookup] at h
  | cons p rest ih =>
    obtain ⟨k, w⟩ := p
    by_cases hk : k = pk
    · subst hk
      simp [mlookup] at h
      subst h
      exact List.mem_cons_self _ _
    · simp [mlookup, hk] at h
      exact List.mem_cons_of_mem _ (ih h)

theorem mlookup_isSome_of_mem {α : Type} {m : List (Pubkey × α)} {pk : Pubkey} {v : α}
    (h : (pk, v) ∈ m) : (mlookup m pk).isSome := by
  induction m with
  | nil => simp at h
  | cons p rest ih =>
    obtain ⟨k, w⟩ := p
    by_cases hk : k = pk
    · simp [mlookup, hk]
    · rcases List.mem_cons.mp h with h1 | h2
      · exact absurd (congrArg Prod.fst h1).symm hk
      · simpa [mlookup, hk] using ih h2

theorem mlookup_eq_none_iff {α : Type} {m : List (Pubkey × α)} {pk : Pubkey} :
    mlookup m pk = none ↔ ∀ v : α, (pk, v) ∉ m := by
  constructor
  · intro h v hmem
    have := mlookup_isSome_of_mem hmem
    rw [h] at this
    simp at this
  · intro h
    cases hl : mlookup m pk with
    | none => rfl
    | some v => exact absurd (mlookup_mem hl) (h v)

theorem mlookup_of_nodup_mem {α : Type} {m : List (Pubkey × α)} {pk : Pubkey} {v : α}
    (hnd : (mkeys m).Nodup) (h : (pk, v) ∈ m) : mlookup m pk = some v := by
  induction m with
  | nil => simp at h
  | cons p rest ih =>
    obtain ⟨k, w⟩ := p
    simp only [mkeys, List.map_cons, List.nodup_cons] at hnd
    rcases List.mem_cons.mp h with h1 | h2
    · obtain ⟨hk, hv⟩ := Prod.mk.injEq .. ▸ h1.symm
      simp [mlookup, hk, hv]
    · have hk : k ≠ pk := by
        intro hkk
        subst hkk
        exact hnd.1 (List.mem_map.mpr ⟨(k, v), h2, rfl⟩)
      simp only [mlookup, hk, if_false]
      exact ih hnd.2 h2

theorem mlookup_mremove {α : Type} (m : List (Pubkey × α)) (pk q : Pubkey) :
    mlookup (mremove m pk) q = if pk = q then none else mlookup m q := by
  induction m with
  | nil => simp [mremove, mlookup]
  | cons p rest ih =>
    obtain ⟨k, w⟩ := p
    by_cases hkpk : k = pk
    · subst hkpk
      by_cases hq : k = q
      · subst hq
        simpa [mremove, mlookup] using ih
      · simpa [mremove, mlookup, hq] using ih
    · by_cases hq : k = q
      · subst hq
        have hpk : pk ≠ k := fun h => hkpk h.symm
        simp [mremove, mlookup, hkpk, hpk]
      · simp only [mremove, if_neg hkpk, mlookup, hq, if_false]
        exact ih

theorem mlookup_minsert {α : Type} (m : List (Pubkey × α)) (pk q : Pubkey) (v : α) :
    mlookup (minsert m pk v) q = if pk = q then some v else mlookup m q := by
  by_cases h : pk = q
  · simp [minsert, mlookup, h]
  · simp only [minsert, mlookup, h, if_false]
    simpa [h] using mlookup_mremove m pk q

theorem mlookup_mAndModify {α : Type} (m : List (Pubkey × α)) (pk q : Pubkey) (f : α → α) :
    mlookup (mAndModify m pk f) q =
      if pk = q then (mlookup m pk).map f else mlookup m q := by
  induction m with
  | nil => simp [mAndModify, mlookup]
  | cons p rest ih =>
    obtain ⟨k, w⟩ := p
    by_cases hkpk : k = pk
    · subst hkpk
      by_cases hq : k = q
      · subst hq
        simp [mAndModify, mlookup]
      · simp only [mAndModify, if_pos rfl, mlookup, hq, if_false]
        simpa [hq] using ih
    · by_cases hq : k = q
      · subst hq
        have hpk : ¬(pk = k) := fun h => hkpk h.symm
        simp [mAndModify, mlookup, hkpk, hpk]
      · simp only [mAndModify, if_neg hkpk, mlookup, hq, if_false]
        exact ih

theorem mAndModify_cons_ne {α : Type} (k : Pubkey) (v : α) (rest : List (Pubkey × α))
    (pk : Pubkey) (f : α → α) (h : ¬(k = pk)) :
    mAndModify ((k, v) :: rest) pk f = (k, v) :: mAndModify rest pk f := by
  simp [mAndModify, h]

theorem mAndModify_of_absent {α : Type} (m : List (Pubkey × α)) (pk : Pubkey) (f : α → α)
    (h : mlookup m pk = none) : mAndModify m pk f = m := by
  induction m with
  | nil => rfl
  | cons p rest ih =>
    obtain ⟨k, w⟩ := p
    by_cases hk : k = pk
    · subst hk
      simp [mlookup] at h
    · simp only [mlookup, hk, if_false] at h
      simp only [mAndModify, if_neg hk]
      rw [ih h]

theorem mlookup_isSome_mAndModify {α : Type} (m : List (Pubkey × α)) (pk q : Pubkey)
    (f : α → α) :
    (mlookup (mAndModify m pk f) q).isSome = (mlookup m q).isSome := by
  rw [mlookup_mAndModify]
  by_cases h : pk = q
  · subst h
    simp
  · simp [h]

theorem mlookup_foldl_minsert {α : Type} (l : List Pubkey) (m : List (Pubkey × α)) (q : Pubkey)
    (v : α) :
    mlookup (l.foldl (fun acc pk => minsert acc pk v) m) q =
      if q ∈ l then some v else mlookup m q := by
  induction l generalizing m with
  | nil => simp
  | cons k rest ih =>
    simp only [List.foldl_cons, ih, List.mem_cons]
    by_cases hq : q ∈ rest
    · simp [hq]
    · by_cases hk : q = k
      · subst hk
        simp [hq, mlookup_minsert]
      · have : ¬(k = q) := fun h => hk h.symm
        simp [hq, hk, mlookup_minsert, this]

theorem mlookup_foldl_mremove {α : Type} (l : List Pubkey) (m : List (Pubkey × α))
    (q : Pubkey) :
    mlookup (l.foldl (fun acc pk => mremove acc pk) m) q =
      if q ∈ l then none else mlookup m q := by
  induction l generalizing m with
  | nil => simp
  | cons k rest ih =>
    simp only [List.foldl_cons, ih, List.mem_cons]
    by_cases hq : q ∈ rest
    · simp [hq]
    · by_cases hk : q = k
      · subst hk
        simp [hq, mlookup_mremove]
      · have : ¬(k = q) := fun h => hk h.symm
        simp [hq, hk, mlookup_mremove, this]

theorem mem_map_fst_filter {α : Type} (m : List (Pubkey × α)) (f : Pubkey × α → Bool)
    (pk : Pubkey) :
    pk ∈ (m.filter f).map Prod.fst ↔ ∃ v, (pk, v) ∈ m ∧ f (pk, v) = true := by
  constructor
  · intro h
    obtain ⟨p, hp, hfst⟩ := List.mem_map.mp h
    obtain ⟨hmem, hf⟩ := List.mem_filter.mp hp
    exact ⟨p.2, by rwa [show (pk, p.2) = p from Prod.ext hfst.symm rfl], by
      rwa [show (pk, p.2) = p from Prod.ext hfst.symm rfl]⟩
  · rintro ⟨v, hmem, hf⟩
    exact List.mem_map.mpr ⟨(pk, v), List.mem_filter.mpr ⟨hmem, hf⟩, rfl⟩

/-! ### Auxiliary lemmas about the operations -/

theorem foldl_prod_split {α β γ : Type} (f : α → γ → α) (g : β → γ → β) :
    ∀ (l : List γ) (a : α) (b : β),
      l.foldl (fun acc c => (f acc.1 c, g acc.2 c)) (a, b) = (l.foldl f a, l.foldl g b) := by
  intro l
  induction l with
  | nil => intro a b; rfl
  | cons c rest ih => intro a b; simp only [List.foldl_cons]; exact ih (f a c) (g b c)

theorem get_executable_automations_nodup (meta : MetaMap) (pp : PoolPosition) (slot : Nat)
    (hnd : (mkeys meta).Nodup) : (get_executable_automations meta pp slot).Nodup := by
  unfold get_executable_automations
  split
  · exact List.Nodup.sublist
      (List.Sublist.map Prod.fst ((List.filter_sublist _).trans (List.filter_sublist _))) hnd
  · exact List.Nodup.sublist (List.Sublist.map Prod.fst (List.filter_sublist _)) hnd

theorem buildPhase_executed_keys_sublist (hist : HistMap) (slot : Nat)
    (build : Pubkey → BuildOutcome) :
    ∀ (due : List Pubkey) (meta : MetaMap),
      ((buildPhase meta hist slot build due).2.map Prod.fst).Sublist due := by
  intro due
  induction due with
  | nil => intro meta; simp [buildPhase]
  | cons pk rest ih =>
    intro meta
    simp only [buildPhase]
    cases hb : build pk with
    | fetchError =>
      simp only [try_build_automation_exec_tx]
      exact (ih _).cons pk
    | buildNone =>
      simp only [try_build_automation_exec_tx]
      exact (ih _).cons pk
    | built tx =>
      simp only [try_build_automation_exec_tx]
      by_cases hd : dedupe_tx hist slot pk tx
      · simp only [if_pos hd, List.map_cons]
        exact (ih _).cons₂ pk
      · simp only [if_neg hd]
        exact (ih _).cons pk

theorem buildPhase_executed_mem (hist : HistMap) (slot : Nat) (build : Pubkey → BuildOutcome)
    (due : List Pubkey) (meta : MetaMap) (pk : Pubkey) (sig : Nat)
    (h : (pk, sig) ∈ (buildPhase meta hist slot build due).2) : pk ∈ due := by
  have := buildPhase_executed_keys_sublist hist slot build due meta
  exact this.subset (List.mem_map.mpr ⟨(pk, sig), h, rfl⟩)

theorem buildPhase_meta_lookup_of_not_mem (hist : HistMap) (slot : Nat)
    (build : Pubkey → BuildOutcome) :
    ∀ (due : List Pubkey) (meta : MetaMap) (q : Pubkey), q ∉ due →
      mlookup (buildPhase meta hist slot build due).1 q = mlookup meta q := by
  intro due
  induction due with
  | nil => intro meta q _; rfl
  | cons pk rest ih =>
    intro meta q hq
    have hqpk : ¬(pk = q) := fun h => hq (h ▸ List.mem_cons_self pk rest)
    have hqrest : q ∉ rest := fun h => hq (List.mem_cons_of_mem pk h)
    simp only [buildPhase]
    cases hb : build pk with
    | fetchError =>
      simp only [try_build_automation_exec_tx]
      rw [ih _ _ hqrest]
      simp [increment_simulation_failure, mlookup_mAndModify, hqpk]
    | buildNone =>
      simp only [try_build_automation_exec_tx]
      rw [ih _ _ hqrest]
      simp [increment_simulation_failure, mlookup_mAndModify, hqpk]
    | built tx =>
      simp only [try_build_automation_exec_tx]
      by_cases hd : dedupe_tx hist slot pk tx
      · simp only [if_pos hd]
        exact ih _ _ hqrest
      · simp only [if_neg hd]
        exact ih _ _ hqrest

theorem buildPhase_meta_lookup_of_executed (hist : HistMap) (slot : Nat)
    (build : Pubkey → BuildOutcome) :
    ∀ (due : List Pubkey) (meta : MetaMap) (pk : Pubkey) (sig : Nat),
      due.Nodup →
      (pk, sig) ∈ (buildPhase meta hist slot build due).2 →
      mlookup (buildPhase meta hist slot build due).1 pk = mlookup meta pk := by
  intro due
  induction due with
  | nil => intro meta pk sig _ h; simp [buildPhase] at h
  | cons pk0 rest ih =>
    intro meta pk sig hnd hmem
    have hnd' := List.nodup_cons.mp hnd
    simp only [buildPhase] at hmem ⊢
    cases hb : build pk0 with
    | fetchError =>
      rw [hb] at hmem
      simp only [try_build_automation_exec_tx] at hmem ⊢
      have hpk : pk ∈ rest := buildPhase_executed_mem hist slot build rest _ pk sig hmem
      have hne : ¬(pk0 = pk) := fun h => hnd'.1 (h ▸ hpk)
      rw [ih _ _ _ hnd'.2 hmem]
      simp [increment_simulation_failure, mlookup_mAndModify, hne]
    | buildNone =>
      rw [hb] at hmem
      simp only [try_build_automation_exec_tx] at hmem ⊢
      have hpk : pk ∈ rest := buildPhase_executed_mem hist slot build rest _ pk sig hmem
      have hne : ¬(pk0 = pk) := fun h => hnd'.1 (h ▸ hpk)
      rw [ih _ _ _ hnd'.2 hmem]
      simp [increment_simulation_failure, mlookup_mAndModify, hne]
    | built tx =>
      rw [hb] at hmem
      simp only [try_build_automation_exec_tx] at hmem ⊢
      by_cases hd : dedupe_tx hist slot pk0 tx
      · simp only [if_pos hd] at hmem ⊢
        rcases List.mem_cons.mp hmem with h1 | h2
        · have hpk0 : pk = pk0 := congrArg Prod.fst h1
          subst hpk0
          exact buildPhase_meta_lookup_of_not_mem hist slot build rest _ pk hnd'.1
        · exact ih _ _ _ hnd'.2 h2
      · simp only [if_neg hd] at hmem ⊢
        exact ih _ _ _ hnd'.2 hmem

theorem buildPhase_meta_isSome (hist : HistMap) (slot : Nat) (build : Pubkey → BuildOutcome) :
    ∀ (due : List Pubkey) (meta : MetaMap) (q : Pubkey),
      (mlookup (buildPhase meta hist slot build due).1 q).isSome =
        (mlookup meta q).isSome := by
  intro due
  induction due with
  | nil => intro meta q; rfl
  | cons pk rest ih =>
    intro meta q
    simp only [buildPhase]
    cases hb : build pk with
    | fetchError =>
      simp only [try_build_automation_exec_tx]
      rw [ih]
      exact mlookup_isSome_mAndModify _ _ _ _
    | buildNone =>
      simp only [try_build_automation_exec_tx]
      rw [ih]
      exact mlookup_isSome_mAndModify _ _ _ _
    | built tx =>
      simp only [try_build_automation_exec_tx]
      by_cases hd : dedupe_tx hist slot pk tx
      · simp only [if_pos hd]
        exact ih _ _
      · simp only [if_neg hd]
        exact ih _ _

theorem submit_fold_lookup (slot : Nat) :
    ∀ (l : List (Pubkey × Nat)) (m : MetaMap) (h : HistMap) (pk : Pubkey),
      (pk ∉ l.map Prod.fst →
        mlookup (l.foldl (fun acc pr =>
          (mremove acc.1 pr.1, minsert acc.2 pr.1 ⟨slot, pr.2⟩)) (m, h)).1 pk = mlookup m pk ∧
        mlookup (l.foldl (fun acc pr =>
          (mremove acc.1 pr.1, minsert acc.2 pr.1 ⟨slot, pr.2⟩)) (m, h)).2 pk = mlookup h pk) ∧
      (∀ sig, (l.map Prod.fst).Nodup → (pk, sig) ∈ l →
        mlookup (l.foldl (fun acc pr =>
          (mremove acc.1 pr.1, minsert acc.2 pr.1 ⟨slot, pr.2⟩)) (m, h)).1 pk = none ∧
        mlookup (l.foldl (fun acc pr =>
          (mremove acc.1 pr.1, minsert acc.2 pr.1 ⟨slot, pr.2⟩)) (m, h)).2 pk =
          some ⟨slot, sig⟩) := by
  intro l
  induction l with
  | nil =>
    intro m h pk
    refine ⟨fun _ => ⟨rfl, rfl⟩, fun sig _ hmem => ?_⟩
    simp at hmem
  | cons pr rest ih =>
    intro m h pk
    obtain ⟨k, s0⟩ := pr
    simp only [List.foldl_cons]
    constructor
    · intro hnot
      simp only [List.map_cons, List.mem_cons] at hnot
      push_neg at hnot
      have hk : ¬(k = pk) := fun hh => hnot.1 hh.symm
      have := (ih (mremove m k) (minsert h k ⟨slot, s0⟩) pk).1 hnot.2
      rw [this.1, this.2, mlookup_mremove, mlookup_minsert]
      simp [hk]
    · intro sig hnd hmem
      simp only [List.map_cons, List.nodup_cons] at hnd
      rcases List.mem_cons.mp hmem with h1 | h2
      · have hfst : pk = k := congrArg Prod.fst h1
        have hsnd : sig = s0 := congrArg Prod.snd h1
        subst hfst
        subst hsnd
        have hknot : pk ∉ rest.map Prod.fst := hnd.1
        have := (ih (mremove m pk) (minsert h pk ⟨slot, sig⟩) pk).1 hknot
        rw [this.1, this.2, mlookup_mremove, mlookup_minsert]
        simp
      · exact (ih (mremove m k) (minsert h k ⟨slot, s0⟩) pk).2 sig hnd.2 h2

theorem dropFailedAutomations_eq (meta : MetaMap) (dropped : Nat) :
    dropFailedAutomations meta dropped =
      (meta.filter (fun p =>
        decide (p.2.simulation_failures ≤ MAX_AUTOMATION_SIMULATION_FAILURES)),
       dropped + (meta.filter (fun p =>
        decide (MAX_AUTOMATION_SIMULATION_FAILURES < p.2.simulation_failures))).length) := by
  induction meta with
  | nil => simp [dropFailedAutomations]
  | cons p rest ih =>
    obtain ⟨pk, md⟩ := p
    by_cases hgt : MAX_AUTOMATION_SIMULATION_FAILURES < md.simulation_failures
    · have hle : ¬(md.simulation_failures ≤ MAX_AUTOMATION_SIMULATION_FAILURES) :=
        Nat.not_le.mpr hgt
      simp only [dropFailedAutomations, ih, if_pos hgt, List.filter_cons]
      simp [hgt, hle]
      omega
    · have hle : md.simulation_failures ≤ MAX_AUTOMATION_SIMULATION_FAILURES :=
        Nat.not_lt.mp hgt
      simp only [dropFailedAutomations, ih, if_neg hgt, List.filter_cons]
      simp [hgt, hle]

/-! ### Claim theorems -/

/-- C10: incrementing the simulation-failure counter for an automation pubkey
with no entry in the executable map leaves the map entirely unchanged —
`entry(..).and_modify(..)` modifies an existing entry but never inserts
one. -/
theorem increment_simulation_failure_untracked_noop :
    ∀ (meta : MetaMap) (pk : Pubkey),
      mlookup meta pk = none → increment_simulation_failure meta pk = meta := by
  intro meta pk h
  unfold increment_simulation_failure
  exact mAndModify_of_absent _ _ _ h

/-- C10 witness: incrementing untracked pubkey 5 leaves the map unchanged. -/
theorem increment_simulation_failure_untracked_noop_witness :
    increment_simulation_failure [(2, ⟨0, 0⟩)] 5 = [(2, ⟨0, 0⟩)] :=
  increment_simulation_failure_untracked_noop [(2, ⟨0, 0⟩)] 5 (by decide)

/-- C6: `dedupe_tx` rejects a newly built transaction iff a history record
for the pubkey exists whose signature equals the transaction's first
signature and whose `slot_sent ≤ slot`; consequently rebuilding the
bit-identical transaction while such a record is outstanding yields nothing
(the ref is excluded from the batch and no second record can be created). -/
theorem dedupe_tx_duplicate_iff :
    ∀ (hist : HistMap) (slot : Nat) (pk : Pubkey) (tx : Transaction),
      (dedupe_tx hist slot pk tx = false ↔
        ∃ r, mlookup hist pk = some r ∧
          r.signature = firstSignature tx ∧ r.slot_sent ≤ slot) ∧
      (∀ (meta : MetaMap) (r : TransactionMetadata),
        mlookup hist pk = some r → r.signature = firstSignature tx →
        r.slot_sent ≤ slot →
        try_build_automation_exec_tx meta hist slot pk (BuildOutcome.built tx) =
          (meta, none)) := by
  intro hist slot pk tx
  have hiff : dedupe_tx hist slot pk tx = false ↔
      ∃ r, mlookup hist pk = some r ∧
        r.signature = firstSignature tx ∧ r.slot_sent ≤ slot := by
    unfold dedupe_tx
    cases hl : mlookup hist pk with
    | none => simp
    | some r0 => simp
  refine ⟨hiff, ?_⟩
  intro meta r hl hsig hle
  have hdup : dedupe_tx hist slot pk tx = false := hiff.mpr ⟨r, hl, hsig, hle⟩
  simp [try_build_automation_exec_tx, hdup]

/-- C6 witness: with record `(slot_sent 5, signature 9)` outstanding for
pubkey 1, rebuilding the identical transaction at slot 6 yields nothing. -/
theorem dedupe_tx_duplicate_iff_witness :
    try_build_automation_exec_tx [] [(1, ⟨5, 9⟩)] 6 1 (BuildOutcome.built ⟨[9]⟩) =
      ([], none) :=
  (dedupe_tx_duplicate_iff [(1, ⟨5, 9⟩)] 6 1 ⟨[9]⟩).2 [] ⟨5, 9⟩ (by decide) (by decide)
    (by decide)

/-- C7: a Registry fetch error during pool rotation hits the `.unwrap()` and
panics the process, contrary to the spec's "transient fetch errors are never
fatal" — the other fetches (Snapshot, SnapshotFrame) fall through softly. -/
theorem registry_fetch_error_panics :
    ∀ (sf sff : FetchResult Unit) (b : Option Transaction) (sim sub : Bool),
      execute_pool_rotate_txs FetchResult.fetchError sf sff b sim sub =
        RotateOutcome.panicked := by
  intro sf sff b sim sub
  rfl

/-- C4: when the batch submit fails, the failure branch writes nothing — the
history map is exactly the pre-round map and the metadata map is exactly the
map as assembled at the end of the build phase; in particular every pubkey
whose transaction was in the batch keeps the metadata entry it had when the
round started. -/
theorem batch_submit_failure_frame :
    ∀ (meta : MetaMap) (hist : HistMap) (slot : Nat) (pp : PoolPosition)
      (build : Pubkey → BuildOutcome),
      (mkeys meta).Nodup →
      (execute_automation_exec_txs meta hist slot pp build false =
        ((buildPhase meta hist slot build
            (get_executable_automations meta pp slot)).1, hist)) ∧
      (∀ pk sig,
        (pk, sig) ∈ (buildPhase meta hist slot build
            (get_executable_automations meta pp slot)).2 →
        mlookup (execute_automation_exec_txs meta hist slot pp build false).1 pk =
          mlookup meta pk) := by
  intro meta hist slot pp build hnd
  have hdue := get_executable_automations_nodup meta pp slot hnd
  have heq : execute_automation_exec_txs meta hist slot pp build false =
      ((buildPhase meta hist slot build
          (get_executable_automations meta pp slot)).1, hist) := by
    unfold execute_automation_exec_txs
    by_cases h : (get_executable_automations meta pp slot).isEmpty = true
    · rw [if_pos h]
      have h0 : get_executable_automations meta pp slot = [] := by
        simpa using h
      rw [h0]
      rfl
    · rw [if_neg h]
      rfl
  refine ⟨heq, ?_⟩
  intro pk sig hmem
  rw [heq]
  exact buildPhase_meta_lookup_of_executed hist slot build _ meta pk sig hdue hmem

/-- C4 witness: a failed batch submit leaves the metadata of batched pubkey 5
exactly as it was. -/
theorem batch_submit_failure_frame_witness :
    mlookup (execute_automation_exec_txs [(5, ⟨100, 0⟩)] [] 100 ⟨some 1, [9]⟩
        (fun _ => BuildOutcome.built ⟨[9]⟩) false).1 5 =
      mlookup [(5, ⟨100, 0⟩)] 5 :=
  (batch_submit_failure_frame [(5, ⟨100, 0⟩)] [] 100 ⟨some 1, [9]⟩
      (fun _ => BuildOutcome.built ⟨[9]⟩) (by decide)).2 5 9 (by decide)

/-- C1 counterexample: for the non-member branch the claimed "earliest
selected unit 57" fails — with due_slot 50 and 3 simulation failures,
slot 57 selects nothing when the worker is outside a non-empty pool. -/
theorem backoff_gate_nonmember_57_counterexample :
    get_executable_automations [(4, ⟨50, 3⟩)] ⟨none, [9]⟩ 57 = [] := by decide

/-- C1 (amended): the backoff gate
`slot ≥ due_slot + EXPONENTIAL_BACKOFF_CONSTANT ^ simulation_failures − 1`
is a necessary condition for selection in both branches; for due_slot 50 and
3 failures the earliest selected slot is 57 in the member branch, while the
non-member branch additionally defers to slot 59. -/
theorem backoff_gate_always_applied :
    (∀ (meta : MetaMap) (pp : PoolPosition) (slot : Nat) (pk : Pubkey)
        (md : ExecutableAutomationMetadata),
      (mkeys meta).Nodup → mlookup meta pk = some md →
      pk ∈ get_executable_automations meta pp slot →
      md.due_slot + EXPONENTIAL_BACKOFF_CONSTANT ^ md.simulation_failures - 1 ≤ slot) ∧
    get_executable_automations [(4, ⟨50, 3⟩)] ⟨some 0, [9]⟩ 57 = [4] ∧
    get_executable_automations [(4, ⟨50, 3⟩)] ⟨some 0, [9]⟩ 56 = [] ∧
    get_executable_automations [(4, ⟨50, 3⟩)] ⟨none, [9]⟩ 59 = [4] ∧
    get_executable_automations [(4, ⟨50, 3⟩)] ⟨none, [9]⟩ 58 = [] := by
  refine ⟨?_, by decide, by decide, by decide, by decide⟩
  intro meta pp slot pk md hnd hl hmem
  unfold get_executable_automations at hmem
  by_cases hb : (pp.current_position.isNone && !pp.workers.isEmpty) = true
  · rw [if_pos hb] at hmem
    obtain ⟨v, hv, hf⟩ := (mem_map_fst_filter _ _ _).mp hmem
    obtain ⟨hv2, _⟩ := List.mem_filter.mp hv
    have hlv := mlookup_of_nodup_mem hnd hv2
    rw [hl] at hlv
    obtain rfl : md = v := Option.some.inj hlv
    simpa [backoffGate] using hf
  · rw [if_neg hb] at hmem
    obtain ⟨v, hv, hf⟩ := (mem_map_fst_filter _ _ _).mp hmem
    have hlv := mlookup_of_nodup_mem hnd hv
    rw [hl] at hlv
    obtain rfl : md = v := Option.some.inj hlv
    simpa [backoffGate] using hf

/-- C1 witness: selection of pubkey 4 (due 50, 3 failures) at slot 57 in the
member branch implies the backoff bound. -/
theorem backoff_gate_always_applied_witness :
    50 + EXPONENTIAL_BACKOFF_CONSTANT ^ 3 - 1 ≤ 57 :=
  backoff_gate_always_applied.1 [(4, ⟨50, 3⟩)] ⟨some 0, [9]⟩ 57 4 ⟨50, 3⟩
    (by decide) (by decide) (by decide)

/-- C2 counterexample: an automation with due_slot 100 and no failures is
not selected by a non-member at slot 108 (the timeout gate is strict). -/
theorem nonmember_timeout_gate_counterexample :
    get_executable_automations [(5, ⟨100, 0⟩)] ⟨none, [9]⟩ 108 = [] := by decide

/-- C2 (amended): a non-member of a non-empty pool selects an entry only if
`slot > due_slot + AUTOMATION_TIMEOUT_WINDOW`; an automation triggered at
slot 100 with zero failures is selected from slot 100 for a member and from
slot 109 onward for a non-member. -/
theorem nonmember_timeout_gate :
    (∀ (meta : MetaMap) (pp : PoolPosition) (slot : Nat) (pk : Pubkey)
        (md : ExecutableAutomationMetadata),
      (mkeys meta).Nodup →
      pp.current_position = none → pp.workers ≠ [] →
      mlookup meta pk = some md →
      pk ∈ get_executable_automations meta pp slot →
      md.due_slot + AUTOMATION_TIMEOUT_WINDOW < slot) ∧
    get_executable_automations [(5, ⟨100, 0⟩)] ⟨some 1, [9]⟩ 100 = [5] ∧
    get_executable_automations [(5, ⟨100, 0⟩)] ⟨none, [9]⟩ 109 = [5] := by
  refine ⟨?_, by decide, by decide⟩
  intro meta pp slot pk md hnd hpos hw hl hmem
  have hempty : pp.workers.isEmpty = false := by
    cases hwl : pp.workers with
    | nil => exact absurd hwl hw
    | cons a l => rfl
  have hb : (pp.current_position.isNone && !pp.workers.isEmpty) = true := by
    rw [hpos, hempty]
    rfl
  unfold get_executable_automations at hmem
  rw [if_pos hb] at hmem
  obtain ⟨v, hv, _⟩ := (mem_map_fst_filter _ _ _).mp hmem
  obtain ⟨hv2, hg⟩ := List.mem_filter.mp hv
  have hlv := mlookup_of_nodup_mem hnd hv2
  rw [hl] at hlv
  obtain rfl : md = v := Option.some.inj hlv
  simpa [timeoutGate] using hg

/-- C2 witness: selection of pubkey 5 (due 100, no failures) at slot 109 by a
non-member implies the strict timeout bound. -/
theorem nonmember_timeout_gate_witness :
    100 + AUTOMATION_TIMEOUT_WINDOW < 109 :=
  nonmember_timeout_gate.1 [(5, ⟨100, 0⟩)] ⟨none, [9]⟩ 109 5 ⟨100, 0⟩
    (by decide) rfl (by decide) (by decide) (by decide)

/-- `process_retries` componentwise: removals act on the history, inserts on
the metadata map. -/
theorem process_retries_components (hist : HistMap) (meta : MetaMap) (slot : Nat)
    (statusOf : Nat → SignatureStatus) :
    process_retries hist meta slot statusOf =
      (let ck := hist.filter
        (fun p => decide (p.2.slot_sent + TRANSACTION_CONFIRMATION_PERIOD < slot))
       let succ := (ck.filter
        (fun p => decide (statusOf p.2.signature = SignatureStatus.landedOk))).map Prod.fst
       let retr := (ck.filter
        (fun p => decide (statusOf p.2.signature = SignatureStatus.notLanded) ||
          decide (statusOf p.2.signature = SignatureStatus.landedFailed))).map Prod.fst
       (retr.foldl (fun acc k => mremove acc k)
          (succ.foldl (fun acc k => mremove acc k) hist),
        retr.foldl (fun acc k => minsert acc k ⟨slot, 0⟩) meta)) := by
  unfold process_retries
  simp only [foldl_prod_split]
  exact foldl_prod_split (fun acc pk => mremove acc pk)
    (fun acc pk => minsert acc pk (⟨slot, 0⟩ : ExecutableAutomationMetadata)) _ _ _

/-- C3: reclassification by the retry processor.  A record is examined only
once `slot > slot_sent + TRANSACTION_CONFIRMATION_PERIOD`; before that, and
on a status-query error, both maps are unchanged at that pubkey.  A landed
success removes the record without touching the metadata; a missing or
landed-failed status removes the record and reinserts metadata
`{due_slot := slot, simulation_failures := 0}`. -/
theorem process_retries_reclassification :
    ∀ (hist : HistMap) (meta : MetaMap) (slot : Nat)
      (statusOf : Nat → SignatureStatus) (pk : Pubkey) (r : TransactionMetadata),
      (mkeys hist).Nodup →
      mlookup hist pk = some r →
      (¬(r.slot_sent + TRANSACTION_CONFIRMATION_PERIOD < slot) →
        mlookup (process_retries hist meta slot statusOf).1 pk = some r ∧
        mlookup (process_retries hist meta slot statusOf).2 pk = mlookup meta pk) ∧
      (r.slot_sent + TRANSACTION_CONFIRMATION_PERIOD < slot →
        (statusOf r.signature = SignatureStatus.queryError →
          mlookup (process_retries hist meta slot statusOf).1 pk = some r ∧
          mlookup (process_retries hist meta slot statusOf).2 pk = mlookup meta pk) ∧
        (statusOf r.signature = SignatureStatus.landedOk →
          mlookup (process_retries hist meta slot statusOf).1 pk = none ∧
          mlookup (process_retries hist meta slot statusOf).2 pk = mlookup meta pk) ∧
        ((statusOf r.signature = SignatureStatus.notLanded ∨
          statusOf r.signature = SignatureStatus.landedFailed) →
          mlookup (process_retries hist meta slot statusOf).1 pk = none ∧
          mlookup (process_retries hist meta slot statusOf).2 pk =
            some { due_slot := slot, simulation_failures := 0 })) := by
  intro hist meta slot statusOf pk r hnd hl
  rw [process_retries_components]
  simp only []
  have hmem_succ :
      pk ∈ ((hist.filter
          (fun p => decide (p.2.slot_sent + TRANSACTION_CONFIRMATION_PERIOD < slot))).filter
          (fun p => decide (statusOf p.2.signature = SignatureStatus.landedOk))).map Prod.fst ↔
        (r.slot_sent + TRANSACTION_CONFIRMATION_PERIOD < slot ∧
          statusOf r.signature = SignatureStatus.landedOk) := by
    rw [mem_map_fst_filter]
    constructor
    · rintro ⟨v, hv, hfv⟩
      obtain ⟨hvh, hwin⟩ := List.mem_filter.mp hv
      have hlv := mlookup_of_nodup_mem hnd hvh
      rw [hl] at hlv
      obtain rfl : r = v := Option.some.inj hlv
      exact ⟨of_decide_eq_true hwin, of_decide_eq_true hfv⟩
    · rintro ⟨hwin, hok⟩
      exact ⟨r, List.mem_filter.mpr ⟨mlookup_mem hl, decide_eq_true hwin⟩,
        decide_eq_true hok⟩
  have hmem_retr :
      pk ∈ ((hist.filter
          (fun p => decide (p.2.slot_sent + TRANSACTION_CONFIRMATION_PERIOD < slot))).filter
          (fun p => decide (statusOf p.2.signature = SignatureStatus.notLanded) ||
            decide (statusOf p.2.signature = SignatureStatus.landedFailed))).map Prod.fst ↔
        (r.slot_sent + TRANSACTION_CONFIRMATION_PERIOD < slot ∧
          (statusOf r.signature = SignatureStatus.notLanded ∨
           statusOf r.signature = SignatureStatus.landedFailed)) := by
    rw [mem_map_fst_filter]
    constructor
    · rintro ⟨v, hv, hfv⟩
      obtain ⟨hvh, hwin⟩ := List.mem_filter.mp hv
      have hlv := mlookup_of_nodup_mem hnd hvh
      rw [hl] at hlv
      obtain rfl : r = v := Option.some.inj hlv
      rw [Bool.or_eq_true, decide_eq_true_eq, decide_eq_true_eq] at hfv
      exact ⟨of_decide_eq_true hwin, hfv⟩
    · rintro ⟨hwin, hor⟩
      refine ⟨r, List.mem_filter.mpr ⟨mlookup_mem hl, decide_eq_true hwin⟩, ?_⟩
      rw [Bool.or_eq_true, decide_eq_true_eq, decide_eq_true_eq]
      exact hor
  constructor
  · intro hnw
    have hns : pk ∉ _ := fun hmem => hnw (hmem_succ.mp hmem).1
    have hnr : pk ∉ _ := fun hmem => hnw (hmem_retr.mp hmem).1
    rw [mlookup_foldl_mremove, if_neg hnr, mlookup_foldl_mremove, if_neg hns,
      mlookup_foldl_minsert, if_neg hnr]
    exact ⟨hl, rfl⟩
  · intro hwin
    refine ⟨?_, ?_, ?_⟩
    · intro hst
      have hns : pk ∉ _ := fun hmem => by
        have := (hmem_succ.mp hmem).2
        rw [hst] at this
        simp at this
      have hnr : pk ∉ _ := fun hmem => by
        rcases (hmem_retr.mp hmem).2 with h1 | h1 <;> (rw [hst] at h1; simp at h1)
      rw [mlookup_foldl_mremove, if_neg hnr, mlookup_foldl_mremove, if_neg hns,
        mlookup_foldl_minsert, if_neg hnr]
      exact ⟨hl, rfl⟩
    · intro hst
      have hs : pk ∈ _ := hmem_succ.mpr ⟨hwin, hst⟩
      have hnr : pk ∉ _ := fun hmem => by
        rcases (hmem_retr.mp hmem).2 with h1 | h1 <;> (rw [hst] at h1; simp at h1)
      rw [mlookup_foldl_mremove, if_neg hnr, mlookup_foldl_mremove, if_pos hs,
        mlookup_foldl_minsert, if_neg hnr]
      exact ⟨rfl, rfl⟩
    · intro hor
      have hr : pk ∈ _ := hmem_retr.mpr ⟨hwin, hor⟩
      rw [mlookup_foldl_mremove, if_pos hr, mlookup_foldl_minsert, if_pos hr]
      exact ⟨rfl, rfl⟩

/-- C3 witness: a record sent at slot 40 checked at slot 52 with a landed
success is removed and no metadata is re-added. -/
theorem process_retries_reclassification_witness :
    mlookup (process_retries [(3, ⟨40, 9⟩)] [] 52 (fun _ => SignatureStatus.landedOk)).1 3 =
        none ∧
      mlookup (process_retries [(3, ⟨40, 9⟩)] [] 52
        (fun _ => SignatureStatus.landedOk)).2 3 = mlookup [] 3 :=
  ((process_retries_reclassification [(3, ⟨40, 9⟩)] [] 52
      (fun _ => SignatureStatus.landedOk) 3 ⟨40, 9⟩ (by decide) (by decide)).2
    (by decide)).2.1 (by decide)

/-- C5: on a successful batch submit, every pubkey whose pair survived the
build-and-dedupe phase has its metadata entry removed and a fresh record
`{slot_sent := slot, signature := first signature}` inserted; every other
pubkey keeps its as-assembled metadata and its pre-round history entry. -/
theorem batch_submit_success_bookkeeping :
    ∀ (meta : MetaMap) (hist : HistMap) (slot : Nat) (pp : PoolPosition)
      (build : Pubkey → BuildOutcome),
      (mkeys meta).Nodup →
      (∀ pk sig,
        (pk, sig) ∈ (buildPhase meta hist slot build
            (get_executable_automations meta pp slot)).2 →
        mlookup (execute_automation_exec_txs meta hist slot pp build true).1 pk = none ∧
        mlookup (execute_automation_exec_txs meta hist slot pp build true).2 pk =
          some ⟨slot, sig⟩) ∧
      (∀ pk,
        pk ∉ ((buildPhase meta hist slot build
            (get_executable_automations meta pp slot)).2.map Prod.fst) →
        mlookup (execute_automation_exec_txs meta hist slot pp build true).1 pk =
          mlookup (buildPhase meta hist slot build
            (get_executable_automations meta pp slot)).1 pk ∧
        mlookup (execute_automation_exec_txs meta hist slot pp build true).2 pk =
          mlookup hist pk) := by
  intro meta hist slot pp build hnd
  have hdue := get_executable_automations_nodup meta pp slot hnd
  have hkeysnd : (((buildPhase meta hist slot build
      (get_executable_automations meta pp slot)).2.map Prod.fst)).Nodup :=
    List.Nodup.sublist
      (buildPhase_executed_keys_sublist hist slot build
        (get_executable_automations meta pp slot) meta) hdue
  have heq : execute_automation_exec_txs meta hist slot pp build true =
      (buildPhase meta hist slot build (get_executable_automations meta pp slot)).2.foldl
        (fun acc pr => (mremove acc.1 pr.1, minsert acc.2 pr.1 ⟨slot, pr.2⟩))
        ((buildPhase meta hist slot build (get_executable_automations meta pp slot)).1,
          hist) := by
    unfold execute_automation_exec_txs
    by_cases h : (get_executable_automations meta pp slot).isEmpty = true
    · rw [if_pos h]
      have h0 : get_executable_automations meta pp slot = [] := by simpa using h
      rw [h0]
      rfl
    · rw [if_neg h]
      rfl
  constructor
  · intro pk sig hmem
    rw [heq]
    exact (submit_fold_lookup slot _ _ _ pk).2 sig hkeysnd hmem
  · intro pk hn
    rw [heq]
    exact (submit_fold_lookup slot _ _ _ pk).1 hn

/-- C5 witness: pubkey 5's built transaction (first signature 9) is batched
at slot 100; afterwards its metadata is gone and the record is present. -/
theorem batch_submit_success_bookkeeping_witness :
    mlookup (execute_automation_exec_txs [(5, ⟨100, 0⟩)] [] 100 ⟨some 1, [9]⟩
        (fun _ => BuildOutcome.built ⟨[9]⟩) true).1 5 = none ∧
      mlookup (execute_automation_exec_txs [(5, ⟨100, 0⟩)] [] 100 ⟨some 1, [9]⟩
        (fun _ => BuildOutcome.built ⟨[9]⟩) true).2 5 = some ⟨100, 9⟩ :=
  (batch_submit_success_bookkeeping [(5, ⟨100, 0⟩)] [] 100 ⟨some 1, [9]⟩
      (fun _ => BuildOutcome.built ⟨[9]⟩) (by decide)).1 5 9 (by decide)

/-- C8 counterexample: a reachable between-rounds state holds a metadata
entry with `simulation_failures = 6` — removal at 6 is deferred to the next
round's prune, not immediate. -/
theorem failure_count_counterexample :
    Reachable failSixState ∧
      mlookup failSixState.executable_automations 7 = some ⟨0, 6⟩ := by
  constructor
  · exact Reachable.step (Reachable.step (Reachable.step (Reachable.step (Reachable.step
      (Reachable.step Reachable.init (envFail 0 [7])) (envFail 1 [])) (envFail 3 []))
      (envFail 7 [])) (envFail 15 [])) (envFail 31 [])
  · decide

/-- C8 (amended): the prune pass at the start of each round removes exactly
the entries with `simulation_failures > MAX_AUTOMATION_SIMULATION_FAILURES`,
incrementing the drop counter once per removal, so after the prune every
surviving entry has `simulation_failures ≤ 5`; a counter may sit at 6 from a
failed build until the next round's prune. -/
theorem failure_count_prune :
    ∀ (meta : MetaMap) (dropped : Nat),
      (∀ pk md, mlookup (dropFailedAutomations meta dropped).1 pk = some md →
        md.simulation_failures ≤ MAX_AUTOMATION_SIMULATION_FAILURES) ∧
      ((dropFailedAutomations meta dropped).2 =
        dropped + (meta.filter (fun p =>
          decide (MAX_AUTOMATION_SIMULATION_FAILURES < p.2.simulation_failures))).length) ∧
      (∀ pk md, (mkeys meta).Nodup → mlookup meta pk = some md →
        MAX_AUTOMATION_SIMULATION_FAILURES < md.simulation_failures →
        mlookup (dropFailedAutomations meta dropped).1 pk = none) := by
  intro meta dropped
  rw [dropFailedAutomations_eq]
  refine ⟨?_, rfl, ?_⟩
  · intro pk md hl
    have hmem := mlookup_mem hl
    obtain ⟨_, hf⟩ := List.mem_filter.mp hmem
    exact of_decide_eq_true hf
  · intro pk md hnd hl hgt
    rw [mlookup_eq_none_iff]
    intro v hv
    obtain ⟨hvm, hfv⟩ := List.mem_filter.mp hv
    have hlv := mlookup_of_nodup_mem hnd hvm
    rw [hl] at hlv
    obtain rfl : md = v := Option.some.inj hlv
    have hle : md.simulation_failures ≤ MAX_AUTOMATION_SIMULATION_FAILURES :=
      of_decide_eq_true hfv
    omega

/-- C8 witness: the prune removes pubkey 1, whose counter is 6. -/
theorem failure_count_prune_witness :
    mlookup (dropFailedAutomations [(1, ⟨0, 6⟩), (2, ⟨0, 3⟩)] 10).1 1 = none :=
  (failure_count_prune [(1, ⟨0, 6⟩), (2, ⟨0, 3⟩)] 10).2.2 1 ⟨0, 6⟩ (by decide)
    (by decide) (by decide)

/-- C9 counterexample: after a successful submission at slot 100, re-triggering
the same automation at slot 101 (within the confirmation window) yields a
reachable state holding both a metadata entry and a history record for it. -/
theorem mutual_exclusion_counterexample :
    Reachable retriggerState ∧
      mlookup retriggerState.executable_automations 7 = some ⟨101, 0⟩ ∧
      mlookup retriggerState.transaction_history 7 = some ⟨100, 555⟩ := by
  refine ⟨?_, by decide, by decide⟩
  exact Reachable.step (Reachable.step Reachable.init envSubmit) envRetrigger

theorem mutExMaps_insert_triggered (trig : List Pubkey) (meta : MetaMap) (hist : HistMap)
    (slot : Nat) (hmx : MutExMaps meta hist)
    (htrig : ∀ pk, pk ∈ trig → mlookup hist pk = none) :
    MutExMaps
      (trig.foldl (fun acc pk =>
        minsert acc pk (⟨slot, 0⟩ : ExecutableAutomationMetadata)) meta) hist := by
  intro pk
  rw [mlookup_foldl_minsert]
  by_cases h : pk ∈ trig
  · rw [if_pos h]
    exact Or.inr (htrig pk h)
  · rw [if_neg h]
    exact hmx pk

theorem mutExMaps_prune (meta : MetaMap) (hist : HistMap) (dropped : Nat)
    (hmx : MutExMaps meta hist) :
    MutExMaps (dropFailedAutomations meta dropped).1 hist := by
  intro pk
  rw [dropFailedAutomations_eq]
  cases hl : mlookup (meta.filter (fun p =>
      decide (p.2.simulation_failures ≤ MAX_AUTOMATION_SIMULATION_FAILURES))) pk with
  | none => exact Or.inl rfl
  | some v =>
    have hvm := (List.mem_filter.mp (mlookup_mem hl)).1
    have hs := mlookup_isSome_of_mem hvm
    rcases hmx pk with h | h
    · rw [h] at hs
      simp at hs
    · exact Or.inr h

theorem mutExMaps_retries (hist : HistMap) (meta : MetaMap) (slot : Nat)
    (statusOf : Nat → SignatureStatus) (hmx : MutExMaps meta hist) :
    MutExMaps (process_retries hist meta slot statusOf).2
      (process_retries hist meta slot statusOf).1 := by
  intro pk
  rw [process_retries_components]
  simp only []
  by_cases hr : pk ∈ ((hist.filter
      (fun p => decide (p.2.slot_sent + TRANSACTION_CONFIRMATION_PERIOD < slot))).filter
      (fun p => decide (statusOf p.2.signature = SignatureStatus.notLanded) ||
        decide (statusOf p.2.signature = SignatureStatus.landedFailed))).map Prod.fst
  · right
    rw [mlookup_foldl_mremove, if_pos hr]
  · rcases hmx pk with h | h
    · left
      rw [mlookup_foldl_minsert, if_neg hr]
      exact h
    · right
      rw [mlookup_foldl_mremove, if_neg hr, mlookup_foldl_mremove]
      by_cases hs : pk ∈ ((hist.filter
          (fun p => decide (p.2.slot_sent + TRANSACTION_CONFIRMATION_PERIOD < slot))).filter
          (fun p => decide (statusOf p.2.signature = SignatureStatus.landedOk))).map Prod.fst
      · rw [if_pos hs]
      · rw [if_neg hs]
        exact h

theorem mutExMaps_buildPhase (hist : HistMap) (slot : Nat) (build : Pubkey → BuildOutcome)
    (due : List Pubkey) (meta : MetaMap) (hmx : MutExMaps meta hist) :
    MutExMaps (buildPhase meta hist slot build due).1 hist := by
  intro pk
  rcases hmx pk with h | h
  · left
    cases hl : mlookup (buildPhase meta hist slot build due).1 pk with
    | none => rfl
    | some v =>
      have hs := buildPhase_meta_isSome hist slot build due meta pk
      rw [hl, h] at hs
      simp at hs
  · exact Or.inr h

theorem mutExMaps_submit_fold (slot : Nat) :
    ∀ (l : List (Pubkey × Nat)) (m : MetaMap) (h : HistMap),
      MutExMaps m h →
      MutExMaps
        (l.foldl (fun acc pr =>
          (mremove acc.1 pr.1, minsert acc.2 pr.1 ⟨slot, pr.2⟩)) (m, h)).1
        (l.foldl (fun acc pr =>
          (mremove acc.1 pr.1, minsert acc.2 pr.1 ⟨slot, pr.2⟩)) (m, h)).2 := by
  intro l
  induction l with
  | nil => intro m h hmx; exact hmx
  | cons pr rest ih =>
    intro m h hmx
    obtain ⟨k, s0⟩ := pr
    simp only [List.foldl_cons]
    apply ih
    intro pk
    by_cases hk : k = pk
    · left
      rw [mlookup_mremove, if_pos hk]
    · rcases hmx pk with hm | hh
      · left
        rw [mlookup_mremove, if_neg hk]
        exact hm
      · right
        rw [mlookup_minsert, if_neg hk]
        exact hh

theorem mutExMaps_exec_pipeline (meta : MetaMap) (hist : HistMap) (slot : Nat)
    (pp : PoolPosition) (build : Pubkey → BuildOutcome) (submitOk : Bool)
    (hmx : MutExMaps meta hist) :
    MutExMaps (execute_automation_exec_txs meta hist slot pp build submitOk).1
      (execute_automation_exec_txs meta hist slot pp build submitOk).2 := by
  unfold execute_automation_exec_txs
  by_cases h : (get_executable_automations meta pp slot).isEmpty = true
  · rw [if_pos h]
    exact hmx
  · rw [if_neg h]
    have hbuilt := mutExMaps_buildPhase hist slot build
      (get_executable_automations meta pp slot) meta hmx
    cases submitOk with
    | false => exact hbuilt
    | true => exact mutExMaps_submit_fold slot _ _ _ hbuilt

/-- C9 (amended): every round preserves pairwise mutual exclusion provided no
newly-triggered pubkey still has an outstanding history record; the
unconditional invariant fails because the trigger ingest inserts metadata
without clearing an outstanding record. -/
theorem mutual_exclusion_preserved :
    ∀ (s : SchedState) (env : RoundEnv),
      MutEx s →
      (∀ pk, pk ∈ env.triggered → mlookup s.transaction_history pk = none) →
      MutEx (execute_txs s env) := by
  intro s env hmx htrig
  unfold execute_txs
  have h0 := mutExMaps_insert_triggered env.triggered s.executable_automations
    s.transaction_history env.slot hmx htrig
  have h1 := mutExMaps_prune _ s.transaction_history s.dropped_automations h0
  have h2 := mutExMaps_retries s.transaction_history _ env.slot env.statusOf h1
  cases hpf : env.poolFetch with
  | none => exact h2
  | some pp => exact mutExMaps_exec_pipeline _ _ env.slot pp env.build env.submitOk h2

/-- C9 witness: from the empty state, a round whose only triggered pubkey has
no outstanding record preserves mutual exclusion. -/
theorem mutual_exclusion_preserved_witness :
    MutEx (execute_txs ⟨[], [], 0⟩ envSubmit) :=
  mutual_exclusion_preserved ⟨[], [], 0⟩ envSubmit (fun _ => Or.inl rfl)
    (fun _ _ => rfl)
